import Mathlib

/-!
Verification of the Intelligent File Organizer (`file_organizer.py`).

This file gives a shallow embedding of the core pipeline of the source
program — folder-key derivation and proposal aggregation
(`generate_organization_proposal`), classifier-response handling
(`analyze_content_for_category`), file discovery (`discover_all_files`)
and plan execution (`execute_organization_plan`) — and proves or refutes
the specified properties of each stage.

Modelling conventions:
* `pathlib.Path` values are modelled as their component lists
  (`List String`); `Path` equality in Python is componentwise, so this is
  the faithful notion of path identity.
* Python dictionaries produced by `json.loads`, and the classifier-result
  dictionaries flowing through the pipeline, are modelled as association
  lists of string keys and scalar values (`PyVal`), with `dget` playing
  the role of `dict.get(key, default)`.
* The filesystem is modelled as the list of existing paths; `shutil.move`
  and `mkdir` act on it explicitly, and an oracle `moveOk` says which
  individual moves the environment lets succeed (permission errors,
  vanished sources, and so on).
-/

/-- Scalar Python values occurring in classification dictionaries:
strings and integers, as produced by decoding the classifier's JSON
response. -/
inductive PyVal where
  | vstr (s : String)
  | vint (n : Int)
  deriving DecidableEq, Repr

/-- Python truthiness of a scalar (`if subcategory:` in the source):
the empty string and the integer 0 are falsy. -/
def PyVal.truthy : PyVal → Bool
  | .vstr s => s != ""
  | .vint n => n != 0

/-- Python `str()` of a scalar, as used by the f-string
`f"{category}/{subcategory}"` in the source. -/
def PyVal.toStr : PyVal → String
  | .vstr s => s
  | .vint n => toString n

/-- Python `==` on scalars: a string never equals an integer. -/
def pyEq : PyVal → PyVal → Bool
  | .vstr a, .vstr b => a == b
  | .vint a, .vint b => a == b
  | _, _ => false

/-- A Python dictionary with string keys and scalar values, modelled as
an association list (keys unique for dictionaries built by the program). -/
abbrev PyDict := List (String × PyVal)

/-- Python `dict.get(key, default)`. -/
def dget (d : PyDict) (key : String) (default : PyVal) : PyVal :=
  match d.find? (fun kv => kv.1 == key) with
  | some kv => kv.2
  | none => default

/-- Whether a key is present in the dictionary. -/
def hasKey (d : PyDict) (key : String) : Bool :=
  (d.find? (fun kv => kv.1 == key)).isSome

/-- A filesystem path as its list of components, the identity `pathlib`
itself uses for `Path` values. -/
abbrev PPath := List String

/-- Membership of the subcategory value in the source's sentinel list
`['Unknown', 'Analysis Failed', 'Error']`, by Python `==`. -/
def sentinelSub (v : PyVal) : Bool :=
  pyEq v (.vstr "Unknown") || pyEq v (.vstr "Analysis Failed") || pyEq v (.vstr "Error")

/-- Folder-key derivation from `generate_organization_proposal`
(`file_organizer.py` lines 215-223): `category` defaults to
`'Uncategorized'`, `subcategory` to `''`; the key is
`f"{category}/{subcategory}"` when the subcategory is truthy and not a
sentinel, and the bare category value otherwise. -/
def folderKey (analysis : PyDict) : PyVal :=
  let category := dget analysis "category" (.vstr "Uncategorized")
  let subcategory := dget analysis "subcategory" (.vstr "")
  if subcategory.truthy && !(sentinelSub subcategory) then
    .vstr (category.toStr ++ "/" ++ subcategory.toStr)
  else
    category

/-- An organization proposal: folder keys in insertion order, each with
its ordered list of `(file_path, reason)` pairs — the shape of the
Python dict `organization_proposal`. -/
abbrev Proposal := List (PyVal × List (PPath × PyVal))

/-- One loop step of `generate_organization_proposal`: append the item
to the entry of `key`, creating the entry at the end when the key is new
(Python dict insertion-order semantics). -/
def addToProposal : Proposal → PyVal → PPath × PyVal → Proposal
  | [], key, item => [(key, [item])]
  | (k, items) :: rest, key, item =>
    if k = key then (k, items ++ [item]) :: rest
    else (k, items) :: addToProposal rest key item

/-- The loop of `generate_organization_proposal` over the remaining
`analysis_results` items, carrying the proposal built so far. -/
def genProposalAux : Proposal → List (PPath × PyDict) → Proposal
  | acc, [] => acc
  | acc, (file_path, analysis) :: rest =>
    genProposalAux
      (addToProposal acc (folderKey analysis)
        (file_path, dget analysis "reason" (.vstr ""))) rest

/-- `generate_organization_proposal` (lines 211-230): fold every
`(file_path, analysis)` item of `analysis_results` into the proposal. -/
def generate_organization_proposal (analysis_results : List (PPath × PyDict)) : Proposal :=
  genProposalAux [] analysis_results

/-- All file paths listed in a proposal, in entry order. -/
def allFiles (prop : Proposal) : List PPath :=
  prop.flatMap (fun e => e.2.map Prod.fst)

theorem allFiles_nil : allFiles [] = [] := rfl

/-- Number of occurrences of path `p` in a list of paths. -/
def countPath (p : PPath) (l : List PPath) : Nat :=
  l.countP (fun q => q = p)

theorem countPath_nil (p : PPath) : countPath p [] = 0 := rfl

theorem countPath_cons (p q : PPath) (l : List PPath) :
    countPath p (q :: l) = countPath p l + (if q = p then 1 else 0) := by
  by_cases h : q = p <;> simp [countPath, List.countP_cons, h]

theorem countPath_append (p : PPath) (l₁ l₂ : List PPath) :
    countPath p (l₁ ++ l₂) = countPath p l₁ + countPath p l₂ := by
  simp [countPath, List.countP_append]

theorem countPath_eq_zero_of_not_mem (p : PPath) (l : List PPath)
    (h : p ∉ l) : countPath p l = 0 := by
  induction l with
  | nil => rfl
  | cons a l ih =>
    rw [countPath_cons, ih (fun hm => h (List.mem_cons_of_mem a hm)),
      if_neg (fun he : a = p => h (List.mem_cons.mpr (Or.inl he.symm)))]

theorem countPath_eq_one_of_nodup_mem (p : PPath) (l : List PPath)
    (hnd : l.Nodup) (h : p ∈ l) : countPath p l = 1 := by
  induction l with
  | nil => exact absurd h (List.not_mem_nil p)
  | cons a l ih =>
    have hnd' := List.nodup_cons.mp hnd
    rw [countPath_cons]
    rcases List.mem_cons.mp h with he | hm
    · subst he
      rw [countPath_eq_zero_of_not_mem p l hnd'.1, if_pos rfl]
    · rw [ih hnd'.2 hm, if_neg (fun he : a = p => hnd'.1 (by rw [he]; exact hm))]

theorem count_allFiles_addToProposal (prop : Proposal) (key : PyVal)
    (item : PPath × PyVal) (p : PPath) :
    countPath p (allFiles (addToProposal prop key item))
      = countPath p (allFiles prop) + (if item.1 = p then 1 else 0) := by
  induction prop with
  | nil =>
    simp only [addToProposal, allFiles, List.flatMap_cons, List.flatMap_nil,
      List.map_cons, List.map_nil, List.append_nil, countPath_cons,
      countPath_nil]
  | cons e rest ih =>
    obtain ⟨k, items⟩ := e
    by_cases h : k = key
    · simp only [addToProposal, if_pos h, allFiles, List.flatMap_cons,
        countPath_append, List.map_append, List.map_cons, List.map_nil]
      rw [countPath_cons, countPath_nil]
      omega
    · simp only [addToProposal, if_neg h, allFiles, List.flatMap_cons,
        countPath_append] at *
      omega

theorem count_allFiles_genProposalAux (results : List (PPath × PyDict))
    (acc : Proposal) (p : PPath) :
    countPath p (allFiles (genProposalAux acc results))
      = countPath p (allFiles acc) + countPath p (results.map Prod.fst) := by
  induction results generalizing acc with
  | nil => simp [genProposalAux, countPath_nil]
  | cons r rest ih =>
    obtain ⟨fp, an⟩ := r
    simp only [genProposalAux, List.map_cons, countPath_cons]
    rw [ih, count_allFiles_addToProposal]
    dsimp only
    omega

/-- C1. The proposal built by `generate_organization_proposal` partitions
the discovered files: when the input files are pairwise distinct (they
are the keys of the Python dict `analysis_results`), every input file
occurs in exactly one entry list across the whole proposal, and no other
file occurs at all. -/
theorem proposal_partitions_files (results : List (PPath × PyDict))
    (hnd : (results.map Prod.fst).Nodup) (p : PPath) :
    countPath p (allFiles (generate_organization_proposal results))
      = (if p ∈ results.map Prod.fst then 1 else 0) := by
  rw [generate_organization_proposal, count_allFiles_genProposalAux]
  simp only [allFiles_nil, countPath_nil, Nat.zero_add]
  by_cases h : p ∈ results.map Prod.fst
  · rw [if_pos h]
    exact countPath_eq_one_of_nodup_mem p _ hnd h
  · rw [if_neg h]
    exact countPath_eq_zero_of_not_mem p _ h

/-- Witness for C1 at a concrete input: two distinct files, the first
classified as code and the second with an empty classification dict. -/
theorem proposal_partitions_files_witness :
    (([(["a.py"], [("category", PyVal.vstr "Code")]),
       (["b.txt"], ([] : PyDict))].map Prod.fst).Nodup)
    ∧ countPath ["a.py"] (allFiles (generate_organization_proposal
        [(["a.py"], [("category", PyVal.vstr "Code")]),
         (["b.txt"], ([] : PyDict))]))
      = (if ["a.py"] ∈ ([(["a.py"], [("category", PyVal.vstr "Code")]),
         (["b.txt"], ([] : PyDict))].map Prod.fst) then 1 else 0) :=
  ⟨by decide, proposal_partitions_files _ (by decide) _⟩

theorem strAppend_cancel_right (a b t : String) (h : a ++ t = b ++ t) : a = b := by
  have h2 := congrArg String.data h
  simp only [String.data_append] at h2
  exact String.ext (List.append_cancel_right h2)

/-- Helper: the folder key of an analysis dict whose `category` and
`subcategory` lookups produce the strings `cc` and `ss`, as one case
split on the sentinel test of the source (line 220). -/
theorem folderKey_cases (d : PyDict) (cc ss : String)
    (h1 : dget d "category" (.vstr "Uncategorized") = .vstr cc)
    (h2 : dget d "subcategory" (.vstr "") = .vstr ss) :
    folderKey d =
      if ss ≠ "" ∧ ss ≠ "Unknown" ∧ ss ≠ "Analysis Failed" ∧ ss ≠ "Error"
      then .vstr (cc ++ "/" ++ ss) else .vstr cc := by
  simp only [folderKey, h1, h2, PyVal.truthy, sentinelSub, pyEq, PyVal.toStr]
  by_cases hcond : ss ≠ "" ∧ ss ≠ "Unknown" ∧ ss ≠ "Analysis Failed" ∧ ss ≠ "Error"
  · rw [if_pos hcond]
    have : (ss != "" && !(ss == "Unknown" || ss == "Analysis Failed" || ss == "Error")) = true := by
      simp [hcond.1, hcond.2.1, hcond.2.2.1, hcond.2.2.2]
    rw [this]
    simp
  · rw [if_neg hcond]
    have : (ss != "" && !(ss == "Unknown" || ss == "Analysis Failed" || ss == "Error")) = false := by
      by_cases e1 : ss = "" <;> by_cases e2 : ss = "Unknown" <;>
        by_cases e3 : ss = "Analysis Failed" <;> by_cases e4 : ss = "Error" <;>
        simp_all
    rw [this]
    simp

/-- C8. Folder-key formation: the key is the category alone when the
subcategory is empty or a sentinel value, and `category ++ "/" ++
subcategory` verbatim otherwise; category strings are used with no
normalization, so two analyses with the same subcategory but
differently-spelled (e.g. differently-cased) categories always receive
distinct folder keys. -/
theorem folderKey_formation (a : PyDict) (c s : String)
    (hc : dget a "category" (.vstr "Uncategorized") = .vstr c)
    (hs : dget a "subcategory" (.vstr "") = .vstr s) :
    ((s = "" ∨ s = "Unknown" ∨ s = "Analysis Failed" ∨ s = "Error") →
        folderKey a = .vstr c)
    ∧ (s ≠ "" → s ≠ "Unknown" → s ≠ "Analysis Failed" → s ≠ "Error" →
        folderKey a = .vstr (c ++ "/" ++ s))
    ∧ (∀ (b : PyDict) (c' : String),
        dget b "category" (.vstr "Uncategorized") = .vstr c' →
        dget b "subcategory" (.vstr "") = .vstr s →
        c ≠ c' → folderKey a ≠ folderKey b) := by
  refine ⟨?_, ?_, ?_⟩
  · intro hsent
    rw [folderKey_cases a c s hc hs, if_neg (by tauto)]
  · intro h1 h2 h3 h4
    rw [folderKey_cases a c s hc hs, if_pos ⟨h1, h2, h3, h4⟩]
  · intro b c' hc' hs' hne
    rw [folderKey_cases a c s hc hs, folderKey_cases b c' s hc' hs']
    by_cases hcond : s ≠ "" ∧ s ≠ "Unknown" ∧ s ≠ "Analysis Failed" ∧ s ≠ "Error"
    · rw [if_pos hcond, if_pos hcond]
      intro heq
      have h3 : c ++ "/" ++ s = c' ++ "/" ++ s := by injection heq
      exact hne (strAppend_cancel_right _ _ _ (strAppend_cancel_right _ _ _ h3))
    · rw [if_neg hcond, if_neg hcond]
      intro heq
      exact hne (by injection heq)

/-- Witness for C8: an analysis with sentinel subcategory `"Unknown"`
keeps the bare category `"Media"` as its key, and the differently-cased
category `"media"` yields a distinct key. -/
theorem folderKey_formation_witness :
    folderKey [("category", PyVal.vstr "Media"), ("subcategory", PyVal.vstr "Unknown")]
        = PyVal.vstr "Media"
    ∧ folderKey [("category", PyVal.vstr "Media"), ("subcategory", PyVal.vstr "Unknown")]
        ≠ folderKey [("category", PyVal.vstr "media"), ("subcategory", PyVal.vstr "Unknown")] :=
  ⟨(folderKey_formation _ "Media" "Unknown" (by decide) (by decide)).1
      (Or.inr (Or.inl rfl)),
   (folderKey_formation _ "Media" "Unknown" (by decide) (by decide)).2.2
      _ "media" (by decide) (by decide) (by decide)⟩

theorem dget_eq_default_of_not_hasKey (d : PyDict) (k : String) (v : PyVal)
    (h : hasKey d k = false) : dget d k v = v := by
  unfold hasKey at h
  unfold dget
  cases hf : d.find? (fun kv => kv.1 == k) with
  | none => rfl
  | some kv =>
    rw [hf] at h
    simp at h

/-- C10 counterexample: a classification dict that lacks the `category`
field but carries the non-sentinel subcategory `"Photos"` is placed
under the folder key `"Uncategorized/Photos"`, not under the folder key
`"Uncategorized"` as claimed. -/
theorem missing_category_key_cex :
    folderKey [("subcategory", PyVal.vstr "Photos")] = PyVal.vstr "Uncategorized/Photos"
    ∧ folderKey [("subcategory", PyVal.vstr "Photos")] ≠ PyVal.vstr "Uncategorized" := by
  constructor
  · rfl
  · decide

/-- C10 (amended). The Proposal Builder is total (a Lean function) and
applies defaults fieldwise: a missing `category` defaults to the string
`"Uncategorized"` — so the folder key is `"Uncategorized"` when the
subcategory is missing, empty or a sentinel, and
`"Uncategorized/<subcategory>"` otherwise — a missing `subcategory` is
treated as no subcategory, and a missing `reason` defaults to the empty
string. -/
theorem builder_defaults (a : PyDict) (s : String)
    (hcat : hasKey a "category" = false)
    (hsub : dget a "subcategory" (.vstr "") = .vstr s) :
    ((s = "" ∨ s = "Unknown" ∨ s = "Analysis Failed" ∨ s = "Error") →
        folderKey a = .vstr "Uncategorized")
    ∧ (s ≠ "" → s ≠ "Unknown" → s ≠ "Analysis Failed" → s ≠ "Error" →
        folderKey a = .vstr ("Uncategorized" ++ "/" ++ s))
    ∧ (hasKey a "reason" = false → dget a "reason" (.vstr "") = .vstr "") := by
  have hc : dget a "category" (.vstr "Uncategorized") = .vstr "Uncategorized" :=
    dget_eq_default_of_not_hasKey a "category" _ hcat
  refine ⟨?_, ?_, fun hr => dget_eq_default_of_not_hasKey a "reason" _ hr⟩
  · intro hsent
    rw [folderKey_cases a "Uncategorized" s hc hsub, if_neg (by tauto)]
  · intro h1 h2 h3 h4
    rw [folderKey_cases a "Uncategorized" s hc hsub, if_pos ⟨h1, h2, h3, h4⟩]

/-- Witness for C10 (amended) at the counterexample dict: missing
category and reason, subcategory `"Photos"`. -/
theorem builder_defaults_witness :
    hasKey [("subcategory", PyVal.vstr "Photos")] "category" = false
    ∧ folderKey [("subcategory", PyVal.vstr "Photos")]
        = PyVal.vstr ("Uncategorized" ++ "/" ++ "Photos")
    ∧ dget [("subcategory", PyVal.vstr "Photos")] "reason" (.vstr "") = PyVal.vstr "" :=
  ⟨by decide,
   (builder_defaults _ "Photos" (by decide) (by decide)).2.1
      (by decide) (by decide) (by decide) (by decide),
   (builder_defaults _ "Photos" (by decide) (by decide)).2.2 (by decide)⟩

/-- The opening-brace character, written via its code point. -/
def lbrace : Char := Char.ofNat 123

/-- The closing-brace character, written via its code point. -/
def rbrace : Char := Char.ofNat 125

/-- Index of the first occurrence of `c`. -/
def firstIdxOf (c : Char) (cs : List Char) : Option Nat :=
  cs.findIdx? (fun x => x = c)

/-- Index of the last occurrence of `c`. -/
def lastIdxOf (c : Char) (cs : List Char) : Option Nat :=
  (cs.reverse.findIdx? (fun x => x = c)).map (fun i => cs.length - 1 - i)

/-- The substring matched by `re.search(r'\x7b.*\x7d', text, re.DOTALL)`
in the source (line 143): greedy matching takes everything from the
first opening brace to the last closing brace after it, newlines
included; `none` when no such pair exists. -/
def extractBraced (s : String) : Option String :=
  let cs := s.toList
  match firstIdxOf lbrace cs, lastIdxOf rbrace cs with
  | some i, some j =>
    if i < j then some (String.mk ((cs.drop i).take (j - i + 1))) else none
  | _, _ => none

/-- Whitespace skipping for the JSON decoder model. -/
def skipWs : List Char → List Char
  | c :: cs =>
    if c = ' ' ∨ c = '\n' ∨ c = '\t' ∨ c = '\r' then skipWs cs else c :: cs
  | [] => []

/-- Parse the remainder of a JSON string literal after the opening
quote; escape sequences are outside the modelled subset and fail. -/
def parseStrRest : List Char → List Char → Option (String × List Char)
  | [], _ => none
  | c :: cs, acc =>
    if c = '"' then some (String.mk acc.reverse, cs)
    else if c = '\\' then none
    else parseStrRest cs (c :: acc)

/-- Parse a JSON string literal. -/
def parseJStr : List Char → Option (String × List Char)
  | c :: cs => if c = '"' then parseStrRest cs [] else none
  | [] => none

/-- Digits-to-value accumulator. -/
def natFromDigits (ds : List Char) : Nat :=
  ds.foldl (fun n c => 10 * n + (c.toNat - 48)) 0

/-- Parse one or more decimal digits. -/
def parseDigits (cs : List Char) : Option (Nat × List Char) :=
  match cs.takeWhile Char.isDigit with
  | [] => none
  | ds => some (natFromDigits ds, cs.dropWhile Char.isDigit)

/-- Parse a JSON integer (optional leading minus). -/
def parseJInt : List Char → Option (Int × List Char)
  | '-' :: cs => (parseDigits cs).map (fun r => (-(r.1 : Int), r.2))
  | cs => (parseDigits cs).map (fun r => ((r.1 : Int), r.2))

/-- Parse a scalar JSON value: a string or an integer. -/
def parseJVal (cs : List Char) : Option (PyVal × List Char) :=
  match cs with
  | c :: _ =>
    if c = '"' then (parseJStr cs).map (fun r => (PyVal.vstr r.1, r.2))
    else (parseJInt cs).map (fun r => (PyVal.vint r.1, r.2))
  | [] => none

/-- Parse one `"key": value` pair. -/
def parseJPair (cs : List Char) : Option ((String × PyVal) × List Char) :=
  match parseJStr (skipWs cs) with
  | none => none
  | some (k, rest) =>
    match skipWs rest with
    | ':' :: rest2 =>
      (parseJVal (skipWs rest2)).map (fun r => ((k, r.1), r.2))
    | _ => none

/-- Add a parsed pair in front of the later pairs; a later duplicate of
the same key wins, mirroring Python dict construction order. -/
def joinPair (kv : String × PyVal) (d : PyDict) : PyDict :=
  if d.any (fun p => p.1 == kv.1) then d else kv :: d

/-- Parse a comma-separated sequence of pairs (fuel-bounded; the fuel is
always at least the input length, which bounds the number of pairs). -/
def parseJPairs : Nat → List Char → Option (PyDict × List Char)
  | 0, _ => none
  | fuel + 1, cs =>
    match parseJPair cs with
    | none => none
    | some (kv, rest) =>
      match skipWs rest with
      | ',' :: rest2 =>
        (parseJPairs fuel rest2).map (fun r => (joinPair kv r.1, r.2))
      | other => some ([kv], other)

/-- Model of `json.loads` restricted to the response contract of the
program: one flat JSON object whose values are strings or integers.
Anything outside this subset — nested objects, arrays, floats, escape
sequences, trailing garbage — fails to decode, exactly as a malformed
response would. -/
def jsonLoads (s : String) : Option PyDict :=
  let cs := skipWs s.toList
  match cs with
  | c :: rest =>
    if c = lbrace then
      let body := skipWs rest
      match body with
      | c2 :: rest2 =>
        if c2 = rbrace then
          if skipWs rest2 = [] then some [] else none
        else
          match parseJPairs (body.length + 1) body with
          | some (d, r) =>
            match skipWs r with
            | c3 :: r3 =>
              if c3 = rbrace ∧ skipWs r3 = [] then some d else none
            | [] => none
          | none => none
      | [] => none
    else none
  | [] => none

/-- Outcome of the `self.client.chat(...)` call in
`analyze_content_for_category`: either a response whose message content
is `responseText`, or an exception (transport/connection failure,
timeout) carrying its message. -/
inductive ChatOutcome where
  | ok (responseText : String)
  | exn (e : String)
  deriving DecidableEq, Repr

/-- The fallback classification returned when no JSON object substring
is found in the response (source lines 146-152). -/
def fallbackAnalysisFailed : PyDict :=
  [("category", .vstr "Uncategorized"), ("subcategory", .vstr "Analysis Failed"),
   ("confidence", .vint 0), ("reason", .vstr "Could not parse AI response")]

/-- The fallback classification returned by the `except` handler
(source lines 154-161): any exception raised inside the `try` block —
a transport error from the chat call or a `json.loads` decode error —
lands here. -/
def fallbackError (e : String) : PyDict :=
  [("category", .vstr "Uncategorized"), ("subcategory", .vstr "Error"),
   ("confidence", .vint 0), ("reason", .vstr ("Analysis failed: " ++ e))]

/-- Exception message used for the decode-failure path of the model
(`json.JSONDecodeError` in Python). -/
def jsonDecodeErrMsg : String := "Expecting value"

/-- `analyze_content_for_category` (source lines 132-161), as a function
of the chat call's outcome: extract the brace-delimited substring and
decode it; with no substring, return the `"Analysis Failed"` fallback;
when the chat call or the decode raises, the `except` handler returns
the `"Error"` fallback. A successfully decoded object is returned as-is,
with no validation of its fields. -/
def analyze_content_for_category (outcome : ChatOutcome) : PyDict :=
  match outcome with
  | .exn e => fallbackError e
  | .ok text =>
    match extractBraced text with
    | none => fallbackAnalysisFailed
    | some js =>
      match jsonLoads js with
      | some d => d
      | none => fallbackError jsonDecodeErrMsg

/-- A service response that decodes cleanly but carries an out-of-range
confidence. -/
def respOutOfRange : String :=
  "\x7b\"category\":\"X\",\"subcategory\":\"Y\",\"confidence\":150,\"reason\":\"r\"\x7d"

/-- C2 counterexample: a response whose JSON object decodes with
confidence 150 is returned verbatim — not replaced by a fallback — and
its confidence lies outside [0, 100]. -/
theorem confidence_out_of_range_returned_cex :
    analyze_content_for_category (ChatOutcome.ok respOutOfRange)
      = [("category", PyVal.vstr "X"), ("subcategory", PyVal.vstr "Y"),
         ("confidence", PyVal.vint 150), ("reason", PyVal.vstr "r")]
    ∧ dget (analyze_content_for_category (ChatOutcome.ok respOutOfRange))
        "confidence" (.vint 0) = PyVal.vint 150
    ∧ ¬ ((0 : Int) ≤ 150 ∧ (150 : Int) ≤ 100) :=
  ⟨by decide, by decide, by decide⟩

/-- C2 (amended). Every classification produced by
`analyze_content_for_category` is either the decoded response object
returned verbatim — with no validation, so its confidence may be absent
or out of range — or one of the two fallbacks, whose confidence is the
integer 0 (which lies in [0, 100]) and whose category is
`"Uncategorized"`. -/
theorem fallback_confidence_zero_or_verbatim (o : ChatOutcome) :
    (∃ t s d, o = ChatOutcome.ok t ∧ extractBraced t = some s ∧ jsonLoads s = some d
        ∧ analyze_content_for_category o = d)
    ∨ (dget (analyze_content_for_category o) "confidence" (.vint 1) = PyVal.vint 0
        ∧ dget (analyze_content_for_category o) "category" (.vstr "") = PyVal.vstr "Uncategorized"
        ∧ (0 : Int) ≤ 0 ∧ (0 : Int) ≤ 100) := by
  cases o with
  | exn e => exact Or.inr ⟨rfl, rfl, by norm_num, by norm_num⟩
  | ok t =>
    cases he : extractBraced t with
    | none =>
      refine Or.inr ⟨?_, ?_, by norm_num, by norm_num⟩ <;>
        simp [analyze_content_for_category, he, fallbackAnalysisFailed, dget]
    | some js =>
      cases hd : jsonLoads js with
      | none =>
        refine Or.inr ⟨?_, ?_, by norm_num, by norm_num⟩ <;>
          simp [analyze_content_for_category, he, hd, fallbackError, dget]
      | some d =>
        exact Or.inl ⟨t, js, d, rfl, he, hd,
          by simp [analyze_content_for_category, he, hd]⟩

/-- A response containing a brace-delimited substring that is not valid
JSON. -/
def braceNonJson : String := "\x7bnot json\x7d"

/-- C3 counterexample: when the extracted brace-delimited substring
fails to decode, the `json.loads` exception is caught by the generic
`except` handler, so the subcategory sentinel is `"Error"` — not
`"Analysis Failed"` as the claim requires for parse failures — even
though no transport error occurred. -/
theorem decode_failure_error_sentinel_cex :
    dget (analyze_content_for_category (ChatOutcome.ok braceNonJson))
        "subcategory" (.vstr "") = PyVal.vstr "Error"
    ∧ dget (analyze_content_for_category (ChatOutcome.ok braceNonJson))
        "subcategory" (.vstr "") ≠ PyVal.vstr "Analysis Failed"
    ∧ analyze_content_for_category (ChatOutcome.ok braceNonJson)
        = fallbackError jsonDecodeErrMsg :=
  ⟨by decide, by decide, by decide⟩

/-- The classification attempt fails: the chat call raised, or no
brace-delimited substring exists, or the extracted substring does not
decode. -/
def isFailureOutcome (o : ChatOutcome) : Prop :=
  (∃ e, o = ChatOutcome.exn e)
  ∨ (∃ t, o = ChatOutcome.ok t
      ∧ (extractBraced t = none
          ∨ ∃ s, extractBraced t = some s ∧ jsonLoads s = none))

/-- C3 (amended). On every failed classification the result is a
fallback with category `"Uncategorized"` and confidence 0; the
subcategory sentinel is `"Analysis Failed"` exactly when the response
contains no brace-delimited substring, and `"Error"` both for
transport/connection errors and when an extracted substring fails to
decode (the decode exception lands in the same `except` handler). -/
theorem fallback_sentinel_characterization (o : ChatOutcome)
    (h : isFailureOutcome o) :
    dget (analyze_content_for_category o) "category" (.vstr "") = PyVal.vstr "Uncategorized"
    ∧ dget (analyze_content_for_category o) "confidence" (.vint 1) = PyVal.vint 0
    ∧ (dget (analyze_content_for_category o) "subcategory" (.vstr "") = PyVal.vstr "Analysis Failed"
        ↔ ∃ t, o = ChatOutcome.ok t ∧ extractBraced t = none)
    ∧ (dget (analyze_content_for_category o) "subcategory" (.vstr "") = PyVal.vstr "Error"
        ↔ ((∃ e, o = ChatOutcome.exn e)
            ∨ ∃ t s, o = ChatOutcome.ok t ∧ extractBraced t = some s ∧ jsonLoads s = none)) := by
  cases o with
  | exn e =>
    refine ⟨rfl, rfl, ?_, ?_⟩
    · rw [show dget (analyze_content_for_category (ChatOutcome.exn e))
          "subcategory" (.vstr "") = PyVal.vstr "Error" from rfl]
      constructor
      · intro habs
        exact absurd habs (by decide)
      · rintro ⟨t, ht, -⟩
        exact ChatOutcome.noConfusion ht
    · rw [show dget (analyze_content_for_category (ChatOutcome.exn e))
          "subcategory" (.vstr "") = PyVal.vstr "Error" from rfl]
      exact ⟨fun _ => Or.inl ⟨e, rfl⟩, fun _ => rfl⟩
  | ok t =>
    cases he : extractBraced t with
    | none =>
      have hres : analyze_content_for_category (ChatOutcome.ok t) = fallbackAnalysisFailed := by
        simp [analyze_content_for_category, he]
      rw [hres]
      refine ⟨rfl, rfl, ?_, ?_⟩
      · exact ⟨fun _ => ⟨t, rfl, he⟩, fun _ => rfl⟩
      · constructor
        · intro habs
          exact absurd habs (by decide)
        · rintro (⟨e, habs⟩ | ⟨t', s, ht, hsome, -⟩)
          · exact ChatOutcome.noConfusion habs
          · cases ht
            rw [he] at hsome
            exact Option.noConfusion hsome
    | some js =>
      cases hd : jsonLoads js with
      | none =>
        have hres : analyze_content_for_category (ChatOutcome.ok t)
            = fallbackError jsonDecodeErrMsg := by
          simp [analyze_content_for_category, he, hd]
        rw [hres]
        refine ⟨rfl, rfl, ?_, ?_⟩
        · constructor
          · intro habs
            exact absurd habs (by decide)
          · rintro ⟨t', ht, hnone⟩
            cases ht
            rw [he] at hnone
            exact Option.noConfusion hnone
        · exact ⟨fun _ => Or.inr ⟨t, js, rfl, he, hd⟩, fun _ => rfl⟩
      | some d =>
        exfalso
        rcases h with ⟨e, habs⟩ | ⟨t', ht, hfail⟩
        · exact ChatOutcome.noConfusion habs
        · cases ht
          rcases hfail with hnone | ⟨s, hsome, hloads⟩
          · rw [he] at hnone
            exact Option.noConfusion hnone
          · rw [he] at hsome
            cases hsome
            rw [hd] at hloads
            exact Option.noConfusion hloads

/-- Witness for C3 (amended) at a braceless prose response. -/
theorem fallback_sentinel_characterization_witness :
    dget (analyze_content_for_category (ChatOutcome.ok "no json here"))
        "category" (.vstr "") = PyVal.vstr "Uncategorized"
    ∧ dget (analyze_content_for_category (ChatOutcome.ok "no json here"))
        "subcategory" (.vstr "") = PyVal.vstr "Analysis Failed" :=
  ⟨(fallback_sentinel_characterization _
      (Or.inr ⟨"no json here", rfl, Or.inl (by decide)⟩)).1,
   (fallback_sentinel_characterization _
      (Or.inr ⟨"no json here", rfl, Or.inl (by decide)⟩)).2.2.1.mpr
      ⟨"no json here", rfl, by decide⟩⟩

mutual
/-- A directory tree: subdirectories (name and subtree, in listing
order) and regular-file names. -/
inductive DirTree where
  | node (dirs : DirList) (files : List String)
/-- A list of named subdirectories. -/
inductive DirList where
  | nil
  | cons (name : String) (sub : DirTree) (rest : DirList)
end

/-- The entries of a directory list as ordinary pairs. -/
def DirList.toList : DirList → List (String × DirTree)
  | .nil => []
  | .cons name sub rest => (name, sub) :: rest.toList

/-- The names of a directory list. -/
def dirNames : DirList → List String
  | .nil => []
  | .cons name _ rest => name :: dirNames rest

/-- Python `s.startswith('.')`. -/
def startsWithDot (s : String) : Bool :=
  match s.toList with
  | c :: _ => c = '.'
  | [] => false

/-- File skipping from `discover_all_files` (line 183): hidden files and
the denylisted system files `Thumbs.db` and `Desktop.ini`. -/
def skipFile (filename : String) : Bool :=
  startsWithDot filename || filename == "Thumbs.db" || filename == "Desktop.ini"

/-- Directory pruning from `discover_all_files` (line 179): hidden
directories and the denylisted tooling directories `__pycache__` and
`node_modules` are removed from the walk. -/
def prunedDir (d : String) : Bool :=
  startsWithDot d || d == "__pycache__" || d == "node_modules"

mutual
/-- `os.walk` as used by `discover_all_files` (lines 173-189): emit the
kept files of the current directory, then recurse into the kept
subdirectories in order. -/
def discoverTree (root : PPath) : DirTree → List PPath
  | .node dirs files =>
    (files.filter (fun f => !(skipFile f))).map (fun f => root ++ [f])
      ++ discoverDirs root dirs
/-- Walk the subdirectory list left to right, skipping pruned names
entirely (their contents are never visited). -/
def discoverDirs (root : PPath) : DirList → List PPath
  | .nil => []
  | .cons name sub rest =>
    (if prunedDir name then [] else discoverTree (root ++ [name]) sub)
      ++ discoverDirs root rest
end

/-- `discover_all_files` of `IntelligentFileOrganizer`: walk the target
directory. -/
def discover_all_files (target_directory : PPath) (t : DirTree) : List PPath :=
  discoverTree target_directory t

/-- The tree has a regular file named `f` in the directory reached by
the component path `ds`. -/
def hasFileAt : List String → DirTree → String → Prop
  | [], .node _ files, f => f ∈ files
  | d :: ds, .node dirs _, f => ∃ sub, (d, sub) ∈ dirs.toList ∧ hasFileAt ds sub f

/-- Boolean membership of a name in a list of names. -/
def hasName (a : String) : List String → Bool
  | [] => false
  | b :: l => a == b || hasName a l

theorem hasName_iff_mem (a : String) (l : List String) :
    hasName a l = true ↔ a ∈ l := by
  induction l with
  | nil => simp [hasName]
  | cons b l ih => simp [hasName, ih]

/-- Duplicate-freedom check on a list of names. -/
def noDups : List String → Bool
  | [] => true
  | a :: l => !(hasName a l) && noDups l

theorem noDups_nodup (l : List String) (h : noDups l = true) : l.Nodup := by
  induction l with
  | nil => exact List.nodup_nil
  | cons a l ih =>
    simp only [noDups, Bool.and_eq_true, Bool.not_eq_true'] at h
    refine List.nodup_cons.mpr ⟨?_, ih h.2⟩
    intro hmem
    exact absurd ((hasName_iff_mem a l).mpr hmem) (by simp [h.1])

mutual
/-- Well-formedness of a tree: in each directory the file names are
pairwise distinct and the subdirectory names are pairwise distinct. -/
def treeWf : DirTree → Bool
  | .node dirs files => noDups files && noDups (dirNames dirs) && dirsWf dirs
/-- Well-formedness of every subtree of a directory list. -/
def dirsWf : DirList → Bool
  | .nil => true
  | .cons _ sub rest => treeWf sub && dirsWf rest
end

theorem dirNames_mem {n : String} {s : DirTree} :
    ∀ (dl : DirList), (n, s) ∈ dl.toList → n ∈ dirNames dl
  | .nil, h => absurd h (List.not_mem_nil _)
  | .cons name sub rest, h => by
    rcases List.mem_cons.mp h with he | hm
    · rw [dirNames]
      exact List.mem_cons.mpr (Or.inl (congrArg Prod.fst he))
    · exact List.mem_cons_of_mem _ (dirNames_mem rest hm)

theorem append_middle_inj (root : PPath) (a b : String) (x y : PPath)
    (h : root ++ [a] ++ (x : PPath) = root ++ [b] ++ y) : a = b := by
  rw [List.append_assoc, List.append_assoc] at h
  have h2 := List.append_cancel_left h
  exact (List.cons_eq_cons.mp h2).1

mutual
/-- Files discovered below `root` are exactly the kept files of the
kept part of the tree, at their walk paths. -/
theorem mem_discoverTree (root : PPath) (t : DirTree) (p : PPath) :
    p ∈ discoverTree root t ↔ ∃ ds f, hasFileAt ds t f
      ∧ (∀ d ∈ ds, prunedDir d = false) ∧ skipFile f = false
      ∧ p = root ++ ds ++ [f] := by
  cases t with
  | node dirs files =>
    constructor
    · intro hp
      rcases List.mem_append.mp hp with hp | hp
      · rcases List.mem_map.mp hp with ⟨f, hf, hpe⟩
        rcases List.mem_filter.mp hf with ⟨hfmem, hkeep⟩
        refine ⟨[], f, hfmem, by simp, by simpa using hkeep, by simp [hpe.symm]⟩
      · rcases (mem_discoverDirs root dirs p).mp hp with
          ⟨name, sub, ds, f, hmem, hnp, hat, hall, hkeep, hpe⟩
        refine ⟨name :: ds, f, ⟨sub, hmem, hat⟩, ?_, hkeep, by simpa using hpe⟩
        intro d hd
        rcases List.mem_cons.mp hd with rfl | hd
        · exact hnp
        · exact hall d hd
    · rintro ⟨ds, f, hat, hall, hkeep, rfl⟩
      cases ds with
      | nil =>
        apply List.mem_append_left
        exact List.mem_map.mpr
          ⟨f, List.mem_filter.mpr ⟨hat, by simp [hkeep]⟩, by simp⟩
      | cons name ds' =>
        apply List.mem_append_right
        obtain ⟨sub, hmem, hat'⟩ := hat
        exact (mem_discoverDirs root dirs _).mpr
          ⟨name, sub, ds', f, hmem, hall name (by simp), hat',
            fun d hd => hall d (by simp [hd]), hkeep, by simp⟩
/-- Files discovered from a subdirectory list are exactly the kept
files of its unpruned members. -/
theorem mem_discoverDirs (root : PPath) (dl : DirList) (p : PPath) :
    p ∈ discoverDirs root dl ↔ ∃ name sub ds f, (name, sub) ∈ dl.toList
      ∧ prunedDir name = false ∧ hasFileAt ds sub f
      ∧ (∀ d ∈ ds, prunedDir d = false) ∧ skipFile f = false
      ∧ p = root ++ [name] ++ ds ++ [f] := by
  cases dl with
  | nil => simp [discoverDirs, DirList.toList]
  | cons name sub rest =>
    constructor
    · intro hp
      rcases List.mem_append.mp hp with hp | hp
      · by_cases hpr : prunedDir name = true
        · rw [if_pos hpr] at hp
          exact absurd hp (List.not_mem_nil p)
        · rw [if_neg hpr] at hp
          rcases (mem_discoverTree (root ++ [name]) sub p).mp hp with
            ⟨ds, f, hat, hall, hkeep, hpe⟩
          exact ⟨name, sub, ds, f, List.mem_cons_self _ _,
            by simpa using hpr, hat, hall, hkeep, by simpa using hpe⟩
      · rcases (mem_discoverDirs root rest p).mp hp with
          ⟨n', sub', ds, f, hmem, hnp, hat, hall, hkeep, hpe⟩
        exact ⟨n', sub', ds, f, List.mem_cons_of_mem _ hmem,
          hnp, hat, hall, hkeep, hpe⟩
    · rintro ⟨n', sub', ds, f, hmem, hnp, hat, hall, hkeep, rfl⟩
      rcases List.mem_cons.mp hmem with heq | hmem'
      · have h1 : n' = name := congrArg Prod.fst heq
        have h2 : sub' = sub := congrArg Prod.snd heq
        subst h1
        subst h2
        apply List.mem_append_left
        rw [if_neg (by simp [hnp])]
        exact (mem_discoverTree (root ++ [n']) sub' _).mpr
          ⟨ds, f, hat, hall, hkeep, by simp⟩
      · apply List.mem_append_right
        exact (mem_discoverDirs root rest _).mpr
          ⟨n', sub', ds, f, hmem', hnp, hat, hall, hkeep, rfl⟩
end

mutual
/-- Under well-formedness, the discovered list of a tree has no
duplicate paths. -/
theorem nodup_discoverTree (root : PPath) (t : DirTree)
    (hwf : treeWf t = true) : (discoverTree root t).Nodup := by
  cases t with
  | node dirs files =>
    rw [treeWf, Bool.and_eq_true, Bool.and_eq_true] at hwf
    obtain ⟨⟨hf, hn⟩, hd⟩ := hwf
    refine List.nodup_append.mpr ⟨?_, nodup_discoverDirs root dirs hn hd, ?_⟩
    · refine List.Nodup.map ?_ ((noDups_nodup files hf).filter _)
      intro f1 f2 he
      have h2 := List.append_cancel_left he
      exact (List.cons_eq_cons.mp h2).1
    · intro p hp1 hp2
      rcases List.mem_map.mp hp1 with ⟨f, _, hpe⟩
      rcases (mem_discoverDirs root dirs p).mp hp2 with
        ⟨n', s', ds, f', _, _, _, _, _, hpe2⟩
      have h0 : root ++ [f] = root ++ [n'] ++ ds ++ [f'] := hpe.symm ▸ hpe2
      have hl := congrArg List.length h0
      simp only [List.length_append, List.length_cons, List.length_nil] at hl
      omega
/-- Under well-formedness and distinct subdirectory names, the
discovered list of a subdirectory list has no duplicate paths. -/
theorem nodup_discoverDirs (root : PPath) (dl : DirList)
    (hn : noDups (dirNames dl) = true) (hwf : dirsWf dl = true) :
    (discoverDirs root dl).Nodup := by
  cases dl with
  | nil => exact List.nodup_nil
  | cons name sub rest =>
    rw [dirsWf, Bool.and_eq_true] at hwf
    rw [dirNames, noDups, Bool.and_eq_true, Bool.not_eq_true'] at hn
    refine List.nodup_append.mpr
      ⟨?_, nodup_discoverDirs root rest hn.2 hwf.2, ?_⟩
    · by_cases hpr : prunedDir name = true
      · rw [if_pos hpr]
        exact List.nodup_nil
      · rw [if_neg hpr]
        exact nodup_discoverTree (root ++ [name]) sub hwf.1
    · intro p hp1 hp2
      have hp1' : p ∈ discoverTree (root ++ [name]) sub := by
        by_cases hpr : prunedDir name = true
        · rw [if_pos hpr] at hp1
          exact absurd hp1 (List.not_mem_nil p)
        · rwa [if_neg hpr] at hp1
      rcases (mem_discoverTree (root ++ [name]) sub p).mp hp1' with
        ⟨ds, f, _, _, _, hpe1⟩
      rcases (mem_discoverDirs root rest p).mp hp2 with
        ⟨n', s', ds', f', hmem', _, _, _, _, hpe2⟩
      have h0 : root ++ [name] ++ (ds ++ [f]) = root ++ [n'] ++ (ds' ++ [f']) := by
        have h1 := hpe1.symm.trans hpe2
        simpa [List.append_assoc] using h1
      have hname : name = n' := append_middle_inj root name n' _ _
        (by simpa [List.append_assoc] using h0)
      have hmemname : name ∈ dirNames rest := by
        rw [hname]
        exact dirNames_mem rest hmem'
      have hcontr := (hasName_iff_mem name (dirNames rest)).mpr hmemname
      rw [hn.1] at hcontr
      exact Bool.noConfusion hcontr
end

/-- C9. File discovery returns exactly one record per regular file
reachable by the pruned recursive traversal: a path is discovered iff it
denotes a file of the tree none of whose ancestor directories is hidden
or denylisted and whose own name is neither hidden nor a denylisted
system file; under well-formedness (distinct names per directory) the
discovered list has no duplicates. Pruned directories contribute
nothing. -/
theorem discovery_characterization (root : PPath) (t : DirTree)
    (hwf : treeWf t = true) :
    (∀ p, p ∈ discover_all_files root t
        ↔ ∃ ds f, hasFileAt ds t f ∧ (∀ d ∈ ds, prunedDir d = false)
            ∧ skipFile f = false ∧ p = root ++ ds ++ [f])
    ∧ (discover_all_files root t).Nodup :=
  ⟨fun p => mem_discoverTree root t p, nodup_discoverTree root t hwf⟩

/-- Spec scenario tree: visible files `notes.md`, `photo.jpg`, hidden
file `.env`, system file `Thumbs.db`, a hidden directory `.git` with
contents, and a visible directory `src` holding `main.py` and a hidden
file. -/
def demoTree : DirTree :=
  .node
    (.cons ".git" (.node .nil ["config"])
      (.cons "src" (.node .nil ["main.py", ".hidden"]) .nil))
    ["notes.md", "photo.jpg", ".env", "Thumbs.db"]

/-- Witness for C9 on the spec's scenario: the hidden/system entries and
the hidden directory's contents are excluded, visible files are each
reported once. -/
theorem discovery_characterization_witness :
    treeWf demoTree = true
    ∧ (discover_all_files ["root"] demoTree).Nodup
    ∧ discover_all_files ["root"] demoTree
        = [["root", "notes.md"], ["root", "photo.jpg"], ["root", "src", "main.py"]] :=
  ⟨by decide, (discovery_characterization ["root"] demoTree (by decide)).2, by decide⟩

/-- `Path.name`: the final component of a path. -/
def lastComponent (p : PPath) : String :=
  (p.getLast?).getD ""

/-- `pathlib`'s `(stem, suffix)` split of a file name: the suffix starts
at the last dot provided it is neither the leading character nor the
final one. -/
def nameSuffixSplit (name : String) : String × String :=
  let cs := name.toList
  match lastIdxOf '.' cs with
  | some i =>
    if 0 < i ∧ i + 1 < cs.length
    then (String.mk (cs.take i), String.mk (cs.drop i))
    else (name, "")
  | none => (name, "")

/-- A filesystem mutation performed by the Execution Engine. -/
inductive FsOp where
  | mkdirOp (p : PPath)
  | moveOp (src dst : PPath)
  deriving DecidableEq, Repr

/-- The per-file record of what the engine did (`Moved`), simulated
(`dry-run` report line), or failed to do (`Error moving ...`). -/
inductive Outcome where
  | moved (origName folderName finalName : String)
  | dryPlanned (origName folderName : String)
  | failed (origName folderName : String) (src dst : PPath)
  deriving DecidableEq, Repr

/-- Execution state: the filesystem (existing paths), the mutations
performed so far, and the per-file outcomes in processing order. -/
structure ExecState where
  fs : List PPath
  ops : List FsOp
  outcomes : List Outcome
  deriving DecidableEq, Repr

/-- Candidate name `f"\x7bstem\x7d_\x7bcounter\x7d\x7bsuffix\x7d"` of
the collision loop (source line 301). -/
def mkCand (stem sfx : String) (counter : Nat) : String :=
  stem ++ "_" ++ toString counter ++ sfx

/-- The `while target_path.exists()` loop of lines 297-302, fuel-bounded
by one more than the filesystem size: candidate names for distinct
counters are distinct, so the loop always exits within the fuel. -/
def resolveLoop (fs : List PPath) (folder : PPath) (stem sfx : String) :
    Nat → Nat → String → String
  | 0, _, cur => cur
  | fuel + 1, counter, cur =>
    if (folder ++ [cur]) ∈ fs then
      resolveLoop fs folder stem sfx fuel (counter + 1) (mkCand stem sfx counter)
    else cur

/-- Collision resolution for one file: starting from the original name,
append `_1`, `_2`, … before the suffix until the target path is free. -/
def resolveName (fs : List PPath) (folder : PPath) (name : String) : String :=
  let sp := nameSuffixSplit name
  resolveLoop fs folder sp.1 sp.2 (fs.length + 1) 1 name

/-- `mkdir(exist_ok=True)`: create the directory when absent. -/
def doMkdir (st : ExecState) (p : PPath) : ExecState :=
  if p ∈ st.fs then st
  else { st with fs := p :: st.fs, ops := st.ops ++ [FsOp.mkdirOp p] }

/-- All ancestor prefixes of a path, shortest first. -/
def ancestors (p : PPath) : List PPath :=
  (List.range p.length).map (fun i => p.take (i + 1))

/-- `mkdir(parents=True, exist_ok=True)`: create the directory and its
missing ancestors. -/
def doMkdirAll (st : ExecState) (p : PPath) : ExecState :=
  (ancestors p).foldl doMkdir st

/-- Split a folder key on `'/'`, dropping empty segments — how `Path /
folder_name` decomposes a multi-component string. -/
def splitSlashAux : List Char → List Char → List String
  | [], acc => [String.mk acc.reverse]
  | c :: cs, acc =>
    if c = '/' then String.mk acc.reverse :: splitSlashAux cs []
    else splitSlashAux cs (c :: acc)

/-- Components of a folder key string. -/
def splitKey (s : String) : List String :=
  (splitSlashAux s.toList []).filter (fun c => c != "")

/-- Environment oracle: whether `shutil.move(src, tgt)` succeeds or
raises (permission error, cross-device failure, vanished source …). -/
def MoveOracle := PPath → PPath → Bool

/-- A proposal as consumed by the Execution Engine: string folder keys
with their `(file_path, reason)` lists. -/
abbrev ExecProposal := List (String × List (PPath × PyVal))

/-- The per-file body of the move loop (source lines 292-308): resolve
the collision against the current filesystem, then attempt the move;
an exception is caught, reported, and processing continues. -/
def execFileStep (moveOk : MoveOracle) (folderName : String)
    (folderPath : PPath) (st : ExecState) (item : PPath × PyVal) : ExecState :=
  let src := item.1
  let origName := lastComponent src
  let finalName := resolveName st.fs folderPath origName
  let tgt := folderPath ++ [finalName]
  if moveOk src tgt then
    { fs := tgt :: st.fs.erase src,
      ops := st.ops ++ [FsOp.moveOp src tgt],
      outcomes := st.outcomes ++ [Outcome.moved origName folderName finalName] }
  else
    { st with outcomes := st.outcomes ++ [Outcome.failed origName folderName src tgt] }

/-- One folder of `execute_organization_plan` (lines 283-311): in a real
run, create the target folder with parents and move each file; in a
dry run, only report each file under its original name. -/
def execFolderStep (moveOk : MoveOracle) (dryRun : Bool) (organizedDir : PPath)
    (st : ExecState) (entry : String × List (PPath × PyVal)) : ExecState :=
  let target_folder := organizedDir ++ splitKey entry.1
  if dryRun then
    { st with outcomes := st.outcomes
        ++ entry.2.map (fun it => Outcome.dryPlanned (lastComponent it.1) entry.1) }
  else
    entry.2.foldl (execFileStep moveOk entry.1 target_folder)
      (doMkdirAll st target_folder)

/-- `execute_organization_plan` (lines 274-311): create the
`organized_by_content` root unless dry-running, then process each
proposal folder in order. -/
def execute_organization_plan (moveOk : MoveOracle) (target_directory : PPath)
    (proposal : ExecProposal) (dry_run : Bool) (fs0 : List PPath) : ExecState :=
  let organized_directory := target_directory ++ ["organized_by_content"]
  let st0 : ExecState := ⟨fs0, [], []⟩
  let st1 := if dry_run then st0 else doMkdir st0 organized_directory
  proposal.foldl (execFolderStep moveOk dry_run organized_directory) st1

/-- The `Files organized:` figure printed by `main` (line 412): the sum
of the proposal's entry-list lengths, computed from the proposal alone. -/
def reportedFilesOrganized (proposal : ExecProposal) : Nat :=
  (proposal.map (fun e => e.2.length)).sum

/-- Number of files actually moved in a run. -/
def movedCount (st : ExecState) : Nat :=
  st.outcomes.countP (fun o =>
    match o with
    | .moved _ _ _ => true
    | _ => false)

/-- A per-file decision as the program reports it: either the file
lands in a folder under a name (the `Moved .. ->` and `[dry-run] .. ->`
lines), or the move errored (the `Error moving ..` line, which names
the file but places it nowhere). -/
inductive Decision where
  | place (folderName fileName : String)
  | moveError (origName : String)
  deriving DecidableEq, Repr

/-- The decision an outcome reports. -/
def decisionOf : Outcome → Decision
  | .moved _ f fn => .place f fn
  | .dryPlanned n f => .place f n
  | .failed n _ _ _ => .moveError n

/-- The decision list of an outcome list. -/
def decisionsOf (l : List Outcome) : List Decision :=
  l.map decisionOf

/-- The decision list of a run. -/
def decisions (st : ExecState) : List Decision :=
  decisionsOf st.outcomes

/-- The folder key and original file name an outcome concerns — the
data determined by the file's position in the proposal, independent of
move success and collisions. -/
def outcomeSkeleton : Outcome → String × String
  | .moved n f _ => (f, n)
  | .dryPlanned n f => (f, n)
  | .failed n f _ _ => (f, n)

/-- The placing decision for a (folder, name) pair. -/
def placeOfPair (pr : String × String) : Decision :=
  .place pr.1 pr.2

/-- The outcome list of an ideal collision-free, failure-free run:
every file moved under its original name. -/
def plainMoves (proposal : ExecProposal) : List Outcome :=
  proposal.flatMap (fun e =>
    e.2.map (fun it => Outcome.moved (lastComponent it.1) e.1 (lastComponent it.1)))

/-- The final names of the files a run moved, in order. -/
def movedNames (st : ExecState) : List String :=
  st.outcomes.filterMap (fun o =>
    match o with
    | .moved _ _ fn => some fn
    | _ => none)

theorem execFolderStep_dry_fs (mo : MoveOracle) (od : PPath)
    (st : ExecState) (e : String × List (PPath × PyVal)) :
    (execFolderStep mo true od st e).fs = st.fs
    ∧ (execFolderStep mo true od st e).ops = st.ops :=
  ⟨rfl, rfl⟩

theorem foldl_dry_preserves (mo : MoveOracle) (od : PPath)
    (prop : ExecProposal) : ∀ st : ExecState,
    (prop.foldl (execFolderStep mo true od) st).fs = st.fs
    ∧ (prop.foldl (execFolderStep mo true od) st).ops = st.ops := by
  induction prop with
  | nil => exact fun st => ⟨rfl, rfl⟩
  | cons e rest ih =>
    intro st
    rw [List.foldl_cons]
    have h := ih (execFolderStep mo true od st e)
    exact ⟨h.1.trans (execFolderStep_dry_fs mo od st e).1,
      h.2.trans (execFolderStep_dry_fs mo od st e).2⟩

/-- C4. Dry-run purity: executing any proposal with the dry-run flag
performs no filesystem mutation — no operation is recorded (not even
creating `organized_by_content`) and the filesystem is unchanged —
while still producing one report line per file. -/
theorem dry_run_no_mutations (mo : MoveOracle) (td : PPath)
    (prop : ExecProposal) (fs0 : List PPath) :
    (execute_organization_plan mo td prop true fs0).fs = fs0
    ∧ (execute_organization_plan mo td prop true fs0).ops = [] :=
  foldl_dry_preserves mo (td ++ ["organized_by_content"]) prop ⟨fs0, [], []⟩

theorem foldl_dry_outcomes (mo : MoveOracle) (od : PPath)
    (prop : ExecProposal) : ∀ st : ExecState,
    (prop.foldl (execFolderStep mo true od) st).outcomes
      = st.outcomes ++ prop.flatMap (fun e =>
          e.2.map (fun it => Outcome.dryPlanned (lastComponent it.1) e.1)) := by
  induction prop with
  | nil => intro st; simp
  | cons e rest ih =>
    intro st
    rw [List.foldl_cons, ih, List.flatMap_cons, ← List.append_assoc]
    rfl

theorem decisionsOf_append (l₁ l₂ : List Outcome) :
    decisionsOf (l₁ ++ l₂) = decisionsOf l₁ ++ decisionsOf l₂ :=
  List.map_append decisionOf l₁ l₂

/-- The (folder, name) pairs a proposal plans, in order. -/
def planPairs (prop : ExecProposal) : List (String × String) :=
  prop.flatMap (fun e => e.2.map (fun it => (e.1, lastComponent it.1)))

theorem decisionsOf_plainMoves (prop : ExecProposal) :
    decisionsOf (plainMoves prop) = (planPairs prop).map placeOfPair := by
  induction prop with
  | nil => rfl
  | cons e rest ih =>
    simp only [plainMoves, planPairs, List.flatMap_cons, List.map_append] at *
    rw [decisionsOf_append, ih]
    simp only [decisionsOf, List.map_map]
    rfl

theorem decisionsOf_dryList (prop : ExecProposal) :
    decisionsOf (prop.flatMap (fun e =>
        e.2.map (fun it => Outcome.dryPlanned (lastComponent it.1) e.1)))
      = (planPairs prop).map placeOfPair := by
  induction prop with
  | nil => rfl
  | cons e rest ih =>
    simp only [planPairs, List.flatMap_cons, List.map_append] at *
    rw [decisionsOf_append, ih]
    simp only [decisionsOf, List.map_map]
    rfl

/-- C5 counterexample data: two source files named `report.txt` headed
for the same folder. -/
def collProp : ExecProposal :=
  [("Docs", [(["s1", "report.txt"], .vstr ""), (["s2", "report.txt"], .vstr "")])]

/-- C5 counterexample initial filesystem. -/
def collFs : List PPath := [["t"], ["s1", "report.txt"], ["s2", "report.txt"]]

/-- C5 counterexample: on the same initial state, the real run resolves
the second file to `report_1.txt` while the dry run reports both files
as `report.txt` — the dry-run branch performs no collision resolution,
so the decision lists differ. -/
theorem dry_run_decisions_differ_cex :
    decisions (execute_organization_plan (fun _ _ => true) ["t"] collProp false collFs)
      = [Decision.place "Docs" "report.txt", Decision.place "Docs" "report_1.txt"]
    ∧ decisions (execute_organization_plan (fun _ _ => true) ["t"] collProp true collFs)
      = [Decision.place "Docs" "report.txt", Decision.place "Docs" "report.txt"]
    ∧ decisions (execute_organization_plan (fun _ _ => true) ["t"] collProp true collFs)
      ≠ decisions (execute_organization_plan (fun _ _ => true) ["t"] collProp false collFs) :=
  ⟨by decide, by decide, by decide⟩

/-- C5 witness data: one file, no collision. -/
def okProp : ExecProposal := [("Docs", [(["s", "a.txt"], .vstr "")])]

/-- C6 data: three files named `report.txt` destined for `Docs`. -/
def threeReports : ExecProposal :=
  [("Docs", [(["s1", "report.txt"], .vstr ""), (["s2", "report.txt"], .vstr ""),
             (["s3", "report.txt"], .vstr "")])]

/-- C6 initial filesystem with a pre-existing `report.txt` in the
target folder. -/
def threeReportsFsPre : List PPath :=
  [["t"], ["s1", "report.txt"], ["s2", "report.txt"], ["s3", "report.txt"],
   ["t", "organized_by_content", "Docs", "report.txt"]]

/-- C6 initial filesystem with no pre-existing target entry. -/
def threeReportsFsEmpty : List PPath :=
  [["t"], ["s1", "report.txt"], ["s2", "report.txt"], ["s3", "report.txt"]]

/-- C6 counterexample: with `report.txt` already present in the target
folder, the first input file also collides, so the three files receive
`report_1.txt`, `report_2.txt`, `report_3.txt` — not `report.txt`,
`report_1.txt`, `report_2.txt` as claimed. -/
theorem collision_names_cex :
    movedNames (execute_organization_plan (fun _ _ => true) ["t"]
        threeReports false threeReportsFsPre)
      = ["report_1.txt", "report_2.txt", "report_3.txt"]
    ∧ ["report_1.txt", "report_2.txt", "report_3.txt"]
      ≠ ["report.txt", "report_1.txt", "report_2.txt"] :=
  ⟨by decide, by decide⟩

/-- C6 (amended). Collision resolution is deterministic, inserts `_1`,
`_2`, … before the extension in input order, and re-checks existence at
each step against entries the engine itself created earlier in the run:
with a pre-existing `report.txt` the three files become `report_1.txt`,
`report_2.txt`, `report_3.txt`; into an initially empty target folder
they become `report.txt`, `report_1.txt`, `report_2.txt`. -/
theorem collision_suffix_names :
    movedNames (execute_organization_plan (fun _ _ => true) ["t"]
        threeReports false threeReportsFsPre)
      = ["report_1.txt", "report_2.txt", "report_3.txt"]
    ∧ movedNames (execute_organization_plan (fun _ _ => true) ["t"]
        threeReports false threeReportsFsEmpty)
      = ["report.txt", "report_1.txt", "report_2.txt"] :=
  ⟨by decide, by decide⟩

/-- An outcome of a real (non-dry) run: the file was either moved or
recorded as failed. -/
def movedOrFailed (o : Outcome) : Prop :=
  (∃ n f fn, o = Outcome.moved n f fn)
  ∨ (∃ n f s t2, o = Outcome.failed n f s t2)

theorem doMkdir_outcomes (st : ExecState) (p : PPath) :
    (doMkdir st p).outcomes = st.outcomes := by
  unfold doMkdir
  split
  · rfl
  · rfl

theorem foldl_doMkdir_outcomes (ps : List PPath) : ∀ st : ExecState,
    ((ps.foldl doMkdir st).outcomes) = st.outcomes := by
  induction ps with
  | nil => exact fun _ => rfl
  | cons q ps ih =>
    intro st
    rw [List.foldl_cons, ih, doMkdir_outcomes]

theorem doMkdirAll_outcomes (st : ExecState) (p : PPath) :
    (doMkdirAll st p).outcomes = st.outcomes :=
  foldl_doMkdir_outcomes (ancestors p) st

theorem execFileStep_outcomes (mo : MoveOracle) (fn : String) (fp : PPath)
    (st : ExecState) (it : PPath × PyVal) :
    ∃ o, movedOrFailed o
      ∧ (execFileStep mo fn fp st it).outcomes = st.outcomes ++ [o] := by
  unfold execFileStep
  dsimp only
  split
  · exact ⟨_, Or.inl ⟨_, _, _, rfl⟩, rfl⟩
  · exact ⟨_, Or.inr ⟨_, _, _, _, rfl⟩, rfl⟩

theorem foldl_files_outcomes (mo : MoveOracle) (fn : String) (fp : PPath)
    (items : List (PPath × PyVal)) : ∀ st : ExecState,
    (items.foldl (execFileStep mo fn fp) st).outcomes.length
      = st.outcomes.length + items.length
    ∧ ∀ o ∈ (items.foldl (execFileStep mo fn fp) st).outcomes,
        o ∈ st.outcomes ∨ movedOrFailed o := by
  induction items with
  | nil =>
    intro st
    exact ⟨by simp, fun o ho => Or.inl ho⟩
  | cons it items ih =>
    intro st
    rw [List.foldl_cons]
    obtain ⟨o, hoMF, houtc⟩ := execFileStep_outcomes mo fn fp st it
    obtain ⟨ihl, ihm⟩ := ih (execFileStep mo fn fp st it)
    constructor
    · rw [ihl, houtc, List.length_append]
      simp
      omega
    · intro o2 ho2
      rcases ihm o2 ho2 with hin | hmf
      · rw [houtc] at hin
        rcases List.mem_append.mp hin with h | h
        · exact Or.inl h
        · exact Or.inr (List.mem_singleton.mp h ▸ hoMF)
      · exact Or.inr hmf

theorem foldl_folders_outcomes (mo : MoveOracle) (od : PPath)
    (prop : ExecProposal) : ∀ st : ExecState,
    (prop.foldl (execFolderStep mo false od) st).outcomes.length
      = st.outcomes.length + reportedFilesOrganized prop
    ∧ ∀ o ∈ (prop.foldl (execFolderStep mo false od) st).outcomes,
        o ∈ st.outcomes ∨ movedOrFailed o := by
  induction prop with
  | nil =>
    intro st
    exact ⟨by simp [reportedFilesOrganized], fun o ho => Or.inl ho⟩
  | cons e rest ih =>
    intro st
    rw [List.foldl_cons]
    have hstep : execFolderStep mo false od st e
        = e.2.foldl (execFileStep mo e.1 (od ++ splitKey e.1))
            (doMkdirAll st (od ++ splitKey e.1)) := rfl
    obtain ⟨hfl, hfm⟩ :=
      foldl_files_outcomes mo e.1 (od ++ splitKey e.1) e.2
        (doMkdirAll st (od ++ splitKey e.1))
    obtain ⟨ihl, ihm⟩ := ih (execFolderStep mo false od st e)
    constructor
    · rw [ihl, hstep, hfl, doMkdirAll_outcomes]
      simp [reportedFilesOrganized]
      omega
    · intro o ho
      rcases ihm o ho with hin | hmf
      · rw [hstep] at hin
        rcases hfm o hin with hin2 | hmf2
        · rw [doMkdirAll_outcomes] at hin2
          exact Or.inl hin2
        · exact Or.inr hmf2
      · exact Or.inr hmf

/-- C7 data: two files of one folder; the environment makes the first
move fail. -/
def twoFilesProp : ExecProposal :=
  [("Docs", [(["s1", "a.txt"], .vstr ""), (["s2", "b.txt"], .vstr "")])]

/-- C7 initial filesystem. -/
def twoFilesFs : List PPath := [["t"], ["s1", "a.txt"], ["s2", "b.txt"]]

/-- C7 oracle: moving `s1/a.txt` raises, every other move succeeds. -/
def failFirstMove : MoveOracle := fun src _ => src != ["s1", "a.txt"]

/-- C7 counterexample: the first file's failure is caught and the second
file is still moved — but the run-level summary printed by `main`
reports `Files organized: 2` (the proposal's total), counting the failed
file as organized, while only 1 file was actually moved; no moved/failed
counters exist. -/
theorem failed_counted_as_organized_cex :
    (execute_organization_plan failFirstMove ["t"] twoFilesProp false twoFilesFs).outcomes
      = [Outcome.failed "a.txt" "Docs" ["s1", "a.txt"]
           ["t", "organized_by_content", "Docs", "a.txt"],
         Outcome.moved "b.txt" "Docs" "b.txt"]
    ∧ movedCount (execute_organization_plan failFirstMove ["t"] twoFilesProp false twoFilesFs) = 1
    ∧ reportedFilesOrganized twoFilesProp = 2
    ∧ (2 : Nat) ≠ 1 :=
  ⟨by decide, by decide, by decide, by decide⟩

/-- C7 (amended). Per-file failures are non-fatal: whatever moves the
environment makes fail, a real run records exactly one outcome per
proposal file — each either `moved` or `failed` — and never aborts; the
run-level figure printed by `main` is the proposal's total file count,
computed from the proposal alone, so failed files are included in the
reported `Files organized:` number and no moved/failed counts are
reported. -/
theorem per_file_failures_nonfatal (mo : MoveOracle) (td : PPath)
    (prop : ExecProposal) (fs0 : List PPath) :
    (execute_organization_plan mo td prop false fs0).outcomes.length
      = reportedFilesOrganized prop
    ∧ ∀ o ∈ (execute_organization_plan mo td prop false fs0).outcomes,
        movedOrFailed o := by
  have h := foldl_folders_outcomes mo (td ++ ["organized_by_content"]) prop
    (doMkdir ⟨fs0, [], []⟩ (td ++ ["organized_by_content"]))
  have h0 : (doMkdir (⟨fs0, [], []⟩ : ExecState)
      (td ++ ["organized_by_content"])).outcomes = [] :=
    doMkdir_outcomes ⟨fs0, [], []⟩ (td ++ ["organized_by_content"])
  constructor
  · have := h.1
    rw [h0] at this
    simpa using this
  · intro o ho
    rcases h.2 o ho with hin | hmf
    · rw [h0] at hin
      exact absurd hin (List.not_mem_nil o)
    · exact hmf

/-- Witness for C7 (amended) at the failing-first-move scenario. -/
theorem per_file_failures_nonfatal_witness :
    (execute_organization_plan failFirstMove ["t"] twoFilesProp false twoFilesFs).outcomes.length
      = reportedFilesOrganized twoFilesProp :=
  (per_file_failures_nonfatal failFirstMove ["t"] twoFilesProp twoFilesFs).1

theorem execFileStep_skeleton (mo : MoveOracle) (fn : String) (fp : PPath)
    (st : ExecState) (it : PPath × PyVal) :
    (execFileStep mo fn fp st it).outcomes.map outcomeSkeleton
      = st.outcomes.map outcomeSkeleton ++ [(fn, lastComponent it.1)] := by
  unfold execFileStep
  dsimp only
  split
  · simp [outcomeSkeleton]
  · simp [outcomeSkeleton]

theorem foldl_files_skeleton (mo : MoveOracle) (fn : String) (fp : PPath)
    (items : List (PPath × PyVal)) : ∀ st : ExecState,
    (items.foldl (execFileStep mo fn fp) st).outcomes.map outcomeSkeleton
      = st.outcomes.map outcomeSkeleton
        ++ items.map (fun it => (fn, lastComponent it.1)) := by
  induction items with
  | nil => intro st; simp
  | cons it items ih =>
    intro st
    rw [List.foldl_cons, ih, execFileStep_skeleton]
    simp

theorem foldl_folders_skeleton (mo : MoveOracle) (od : PPath)
    (prop : ExecProposal) : ∀ st : ExecState,
    (prop.foldl (execFolderStep mo false od) st).outcomes.map outcomeSkeleton
      = st.outcomes.map outcomeSkeleton ++ planPairs prop := by
  induction prop with
  | nil => intro st; simp [planPairs]
  | cons e rest ih =>
    intro st
    rw [List.foldl_cons, ih]
    have hstep : execFolderStep mo false od st e
        = e.2.foldl (execFileStep mo e.1 (od ++ splitKey e.1))
            (doMkdirAll st (od ++ splitKey e.1)) := rfl
    rw [hstep, foldl_files_skeleton,
      doMkdirAll_outcomes st (od ++ splitKey e.1)]
    simp [planPairs, List.flatMap_cons, List.append_assoc]

theorem run_skeleton (mo : MoveOracle) (td : PPath) (prop : ExecProposal)
    (fs0 : List PPath) :
    (execute_organization_plan mo td prop false fs0).outcomes.map outcomeSkeleton
      = planPairs prop := by
  have h := foldl_folders_skeleton mo (td ++ ["organized_by_content"]) prop
    (doMkdir ⟨fs0, [], []⟩ (td ++ ["organized_by_content"]))
  rw [doMkdir_outcomes] at h
  simpa using h

theorem run_movedOrFailed (mo : MoveOracle) (td : PPath) (prop : ExecProposal)
    (fs0 : List PPath) :
    ∀ o ∈ (execute_organization_plan mo td prop false fs0).outcomes,
      movedOrFailed o := by
  intro o ho
  have h := foldl_folders_outcomes mo (td ++ ["organized_by_content"]) prop
    (doMkdir ⟨fs0, [], []⟩ (td ++ ["organized_by_content"]))
  rcases h.2 o ho with hin | hmf
  · rw [doMkdir_outcomes] at hin
    exact absurd hin (List.not_mem_nil o)
  · exact hmf

theorem plainMoves_eq_planPairs (prop : ExecProposal) :
    plainMoves prop
      = (planPairs prop).map (fun pr => Outcome.moved pr.2 pr.1 pr.2) := by
  induction prop with
  | nil => rfl
  | cons e rest ih =>
    simp only [plainMoves, planPairs, List.flatMap_cons, List.map_append] at *
    rw [ih]
    simp only [List.map_map]
    rfl

theorem outcomes_eq_moved_of_place_decisions :
    ∀ (l : List Outcome), (∀ o ∈ l, movedOrFailed o) →
    l.map decisionOf = (l.map outcomeSkeleton).map placeOfPair →
    l = (l.map outcomeSkeleton).map (fun pr => Outcome.moved pr.2 pr.1 pr.2)
  | [], _, _ => rfl
  | o :: l, hmf, hdec => by
    simp only [List.map_cons, List.cons.injEq] at hdec
    obtain ⟨hhd, htl⟩ := hdec
    have hrest := outcomes_eq_moved_of_place_decisions l
      (fun o2 h2 => hmf o2 (List.mem_cons_of_mem o h2)) htl
    rcases hmf o (List.mem_cons_self o l) with ⟨n, f, fn, rfl⟩ | ⟨n, f, s, t2, rfl⟩
    · simp only [decisionOf, outcomeSkeleton, placeOfPair, Decision.place.injEq] at hhd
      simp only [List.map_cons, outcomeSkeleton]
      rw [hhd.2]
      exact List.cons_eq_cons.mpr ⟨rfl, hrest⟩
    · simp only [decisionOf, outcomeSkeleton, placeOfPair] at hhd
      exact Decision.noConfusion hhd

/-- C5 (amended). The dry run reports every file under its original
name with no collision resolution, and its per-file decisions equal the
decisions reported by a real execution on the same initial state
exactly when the real run moves every file under its original,
unsuffixed name: a collision that forces a suffixed name, or a failed
move (reported as an error, not a placement), makes the two reports
differ. -/
theorem dry_run_decisions_match_iff (mo : MoveOracle) (td : PPath)
    (prop : ExecProposal) (fs0 : List PPath) :
    decisions (execute_organization_plan mo td prop true fs0)
      = decisions (execute_organization_plan mo td prop false fs0)
    ↔ (execute_organization_plan mo td prop false fs0).outcomes
      = plainMoves prop := by
  have hdry : decisions (execute_organization_plan mo td prop true fs0)
      = (planPairs prop).map placeOfPair := by
    have h1 : (execute_organization_plan mo td prop true fs0).outcomes
        = prop.flatMap (fun e =>
            e.2.map (fun it => Outcome.dryPlanned (lastComponent it.1) e.1)) :=
      foldl_dry_outcomes mo (td ++ ["organized_by_content"]) prop ⟨fs0, [], []⟩
    rw [decisions, h1, decisionsOf_dryList]
  constructor
  · intro h
    have hskel := run_skeleton mo td prop fs0
    have hmf := run_movedOrFailed mo td prop fs0
    have hreal : (execute_organization_plan mo td prop false fs0).outcomes.map decisionOf
        = ((execute_organization_plan mo td prop false fs0).outcomes.map
            outcomeSkeleton).map placeOfPair := by
      rw [hskel]
      exact h.symm.trans hdry
    have h3 := outcomes_eq_moved_of_place_decisions _ hmf hreal
    rw [hskel] at h3
    rw [h3, plainMoves_eq_planPairs]
  · intro h
    rw [hdry, decisions, h, decisionsOf_plainMoves]

/-- Witness for C5 (amended): with a single collision-free file the
real run's outcomes are the plain moves, so the dry-run decisions
coincide with the real ones. -/
theorem dry_run_decisions_match_iff_witness :
    decisions (execute_organization_plan (fun _ _ => true) ["t"] okProp true [["t"]])
      = decisions (execute_organization_plan (fun _ _ => true) ["t"] okProp false [["t"]]) :=
  (dry_run_decisions_match_iff (fun _ _ => true) ["t"] okProp [["t"]]).mpr (by decide)
